import Mathlib

/-
Verification development for the msgpack-differ repository (src/main.rs).

The program decodes MessagePack files into `rmpv::Value` trees, shows them,
and computes a CRC-32 digest of the raw bytes.  Its own algorithmic content is:

  * `Crc32.calculate_hash_of`   (src/main.rs:35-42, delegating to crc32fast)
  * `LoadedFile::load_from`     (src/main.rs:50-63)
  * `MsgPackDifferApp::render_msg_pack_file` (src/main.rs:103-167), the
    per-slot load/reload/unload state machine
  * `render_rmpv`               (src/main.rs:217-292)
  * `HashableValue`'s `Hash` and `PartialEq` impls (src/main.rs:309-372)

The value type, its derived `PartialEq`, and the decoder come from the rmpv
crate, and the digest from the crc32fast crate; both are external dependencies
whose sources are not in this repository, so they are modelled here from their
documented, well-known behaviour (rmpv's `Value`/`Integer`/`Utf8String` derive
`PartialEq`; crc32fast computes the standard reflected CRC-32).

Machine integers are modelled as `Nat`/`Int`; IEEE floats are modelled by
their bit patterns (`Nat` below `2 ^ 32` / `2 ^ 64`), with Rust's numeric
`f32::eq`/`f64::eq` expressed directly on bit patterns.
-/

/-! ### Bytes -/

/-- A `u8` value. -/
abbrev Byte := Nat

/-! ### IEEE-754 equality on bit patterns

Rust's derived `PartialEq` on `rmpv::Value` compares `F32`/`F64` payloads with
the IEEE numeric `==`:  NaN compares unequal to everything (itself included),
`+0.0 == -0.0`, and every other bit pattern denotes a distinct extended real,
so on non-NaN non-zero patterns numeric equality coincides with bit equality. -/

/-- Bit pattern of `-0.0f64`. -/
def f64NegZeroBits : Nat := 0x8000000000000000

/-- Bit pattern of one `f64` NaN (the canonical quiet NaN). -/
def f64NaNBits : Nat := 0x7ff8000000000000

/-- Does this `f64` bit pattern denote a NaN (exponent all ones, fraction nonzero)? -/
def f64IsNaN (a : Nat) : Bool := a / 2 ^ 52 % 2 ^ 11 == 2047 && a % 2 ^ 52 != 0

/-- Does this `f64` bit pattern denote a zero (all bits except the sign clear)? -/
def f64IsZero (a : Nat) : Bool := a % 2 ^ 63 == 0

/-- Rust `f64::eq`, expressed on bit patterns. -/
def f64Eq (a b : Nat) : Bool :=
  !f64IsNaN a && !f64IsNaN b && (a == b || (f64IsZero a && f64IsZero b))

/-- Does this `f32` bit pattern denote a NaN? -/
def f32IsNaN (a : Nat) : Bool := a / 2 ^ 23 % 2 ^ 8 == 255 && a % 2 ^ 23 != 0

/-- Does this `f32` bit pattern denote a zero? -/
def f32IsZero (a : Nat) : Bool := a % 2 ^ 31 == 0

/-- Rust `f32::eq`, expressed on bit patterns. -/
def f32Eq (a b : Nat) : Bool :=
  !f32IsNaN a && !f32IsNaN b && (a == b || (f32IsZero a && f32IsZero b))

/-! ### The value model (rmpv crate)

`rmpv::Integer` wraps the private enum
`IntPriv { PosInt(u64), NegInt(i64) }`; every constructor of the crate puts a
non-negative number in `PosInt` and a strictly negative one in `NegInt`, so the
two ranges are disjoint for every decoder-produced value.  `PartialEq` is
derived, hence compares the constructor and the stored machine integer.

`rmpv::Utf8String` stores `Result<String, (Vec<u8>, Utf8Error)>`.  Whether the
`Ok` or the `Err` side is taken, and the `Utf8Error` itself, are functions of
the stored bytes for every decoder-produced value, so the model keeps just the
raw byte sequence; derived `PartialEq` then coincides with byte equality. -/

/-- `rmpv`'s `IntPriv`: `PosInt` holds a `u64`, `NegInt` an `i64`
(strictly negative for every value the crate constructs). -/
inductive IntPriv where
  | posInt (n : Nat)
  | negInt (n : Int)
deriving DecidableEq, Repr

/-- Derived `PartialEq` on `rmpv::Integer`. -/
def intPrivEq : IntPriv → IntPriv → Bool
  | .posInt a, .posInt b => a == b
  | .negInt a, .negInt b => a == b
  | _, _ => false

/-- `rmpv::Value`.  Floats are carried as IEEE bit patterns, strings as their
raw UTF-8 bytes (see above), `ext` as the `i8` type tag plus payload bytes. -/
inductive Value where
  | nil
  | boolean (b : Bool)
  | integer (i : IntPriv)
  | f32 (bits : Nat)
  | f64 (bits : Nat)
  | string (s : List Byte)
  | binary (b : List Byte)
  | array (a : List Value)
  | map (m : List (Value × Value))
  | ext (tag : Int) (data : List Byte)
deriving Repr

mutual

/-- Derived `PartialEq` on `rmpv::Value` (what `HashableValue::eq` at
src/main.rs:368-372 delegates to): same constructor, payloads compared with
the payload type's `==` — in particular IEEE numeric equality for floats. -/
def valueEq : Value → Value → Bool
  | .nil, .nil => true
  | .boolean a, .boolean b => a == b
  | .integer a, .integer b => intPrivEq a b
  | .f32 a, .f32 b => f32Eq a b
  | .f64 a, .f64 b => f64Eq a b
  | .string a, .string b => a == b
  | .binary a, .binary b => a == b
  | .array a, .array b => valueListEq a b
  | .map a, .map b => valuePairListEq a b
  | .ext ta da, .ext tb db => ta == tb && da == db
  | _, _ => false

/-- Derived `PartialEq` on `Vec<Value>`: equal length, pairwise equal. -/
def valueListEq : List Value → List Value → Bool
  | [], [] => true
  | a :: as', b :: bs' => valueEq a b && valueListEq as' bs'
  | _, _ => false

/-- Derived `PartialEq` on `Vec<(Value, Value)>`. -/
def valuePairListEq : List (Value × Value) → List (Value × Value) → Bool
  | [], [] => true
  | (ka, va) :: as', (kb, vb) :: bs' =>
    valueEq ka kb && valueEq va vb && valuePairListEq as' bs'
  | _, _ => false

end

example : valueEq (.array [.nil, .boolean true]) (.array [.nil, .boolean true]) = true := by
  decide

example : valueEq (.f64 0) (.f64 f64NegZeroBits) = true := by decide

example : valueEq (.f64 f64NaNBits) (.f64 f64NaNBits) = false := by decide

/-! ### Integer accessors (rmpv crate)

`HashableValue::hash` (src/main.rs:319-328) dispatches an `Integer` through
`as_i64`, then `as_u64`, then `as_f64`; rmpv defines
`as_i64`: `PosInt(n) => i64::try_from(n).ok()`, `NegInt(n) => Some(n)`, and
`as_u64`: `PosInt(n) => Some(n)`, `NegInt(n) => u64::try_from(n).ok()`. -/

/-- `i64::MAX`. -/
def i64Max : Nat := 2 ^ 63 - 1

/-- `rmpv::Integer::as_i64`. -/
def IntPriv.as_i64 : IntPriv → Option Int
  | .posInt n => if n ≤ i64Max then some (n : Int) else none
  | .negInt n => some n

/-- `rmpv::Integer::as_u64`. -/
def IntPriv.as_u64 : IntPriv → Option Nat
  | .posInt n => some n
  | .negInt n => if 0 ≤ n then some n.toNat else none

/-- The mathematical value stored in an `rmpv::Integer`. -/
def IntPriv.val : IntPriv → Int
  | .posInt n => (n : Int)
  | .negInt n => n

/-! ### The hasher-input model

`HashableValue::hash` (src/main.rs:310-367) feeds a `std::hash::Hasher`.  We
model the observable behaviour of a hash as the exact sequence of `Hasher`
method calls it performs, each call one `HEvent`:

  * `Value::Nil`         → `write_u8(0)`
  * `Value::Boolean(b)`  → `bool::hash` → `write_u8(b as u8)`
  * `Value::Integer(i)`  → `i64::hash` → `write_i64`, or `u64::hash` →
    `write_u64`, or `f64::to_bits::hash` → `write_u64`, else `panic!`
  * `Value::F32(f)`      → `u32::hash(f.to_bits())` → `write_u32`
  * `Value::F64(f)`      → `u64::hash(f.to_bits())` → `write_u64`
  * `Value::String(s)`   → `<[u8]>::hash(s.as_bytes())` →
    `write_length_prefix(len)` then `write(bytes)`
  * `Value::Binary(b)`   → `write_u8(6)`, `write_u64(len)`, `write(b)`
  * `Value::Array(a)`    → `write_u8(7)`, `write_u64(len)`, children in order
  * `Value::Map(m)`      → `write_u8(8)`, `write_u64(len)`, key then value
    for each entry in order
  * `Value::Ext(t, b)`   → `write_u8(9)`, `write_i8(t)`, `write_u64(len)`,
    `write(b)`

A `panic!` (the unrepresentable-`Integer` arm, src/main.rs:327) is modelled as
`none`. -/

/-- One call to a `std::hash::Hasher` method. -/
inductive HEvent where
  | u8 (v : Nat)
  | u32 (v : Nat)
  | u64 (v : Nat)
  | i8 (v : Int)
  | i64 (v : Int)
  | usizeLen (v : Nat)
  | bytes (bs : List Byte)
deriving DecidableEq, Repr

/-- The `Value::Integer` arm of `HashableValue::hash` (src/main.rs:319-328):
try `as_i64`, then `as_u64`, then `as_f64`; `none` models reaching the
`as_f64`-or-`panic!` fallback past both integer accessors. -/
def hashInteger (i : IntPriv) : Option (List HEvent) :=
  match i.as_i64 with
  | some v => some [.i64 v]
  | none =>
    match i.as_u64 with
    | some v => some [.u64 v]
    | none => none

mutual

/-- `HashableValue::hash` (src/main.rs:310-367) as the sequence of hasher
calls it performs; `none` models the `panic!` arm. -/
def hashValue : Value → Option (List HEvent)
  | .nil => some [.u8 0]
  | .boolean b => some [.u8 (if b then 1 else 0)]
  | .integer i => hashInteger i
  | .f32 bits => some [.u32 bits]
  | .f64 bits => some [.u64 bits]
  | .string s => some [.usizeLen s.length, .bytes s]
  | .binary b => some [.u8 6, .u64 b.length, .bytes b]
  | .array a =>
    match hashValueList a with
    | some evs => some ([.u8 7, .u64 a.length] ++ evs)
    | none => none
  | .map m =>
    match hashValuePairList m with
    | some evs => some ([.u8 8, .u64 m.length] ++ evs)
    | none => none
  | .ext tag data => some [.u8 9, .i8 tag, .u64 data.length, .bytes data]

/-- Hasher calls of the elements of an `Array`, in index order. -/
def hashValueList : List Value → Option (List HEvent)
  | [] => some []
  | v :: vs =>
    match hashValue v, hashValueList vs with
    | some h, some hs => some (h ++ hs)
    | _, _ => none

/-- Hasher calls of the entries of a `Map`, key then value, in stored order. -/
def hashValuePairList : List (Value × Value) → Option (List HEvent)
  | [] => some []
  | (k, v) :: kvs =>
    match hashValue k, hashValue v, hashValuePairList kvs with
    | some hk, some hv, some hs => some (hk ++ hv ++ hs)
    | _, _, _ => none

end

example : hashValue (.array [.nil]) = some [.u8 7, .u64 1, .u8 0] := by decide

example : hashValue .nil = hashValue (.boolean false) := by decide

example : hashValue (.integer (.posInt (2 ^ 63))) = some [.u64 (2 ^ 63)] := by decide

example : hashValue (.integer (.negInt (-1))) = some [.i64 (-1)] := by decide

/-! ### Integrity digest (CRC-32)

`Crc32::calculate_hash_of` (src/main.rs:35-42) feeds all bytes to a
`crc32fast::Hasher` and finalizes.  Modelled from the spec: the crc32fast
crate's source is not in this repository; the spec fixes its behaviour as the
standard reflected CRC-32 with polynomial `0xEDB88320`, initial value
`0xFFFFFFFF` and final XOR `0xFFFFFFFF`, processed bit by bit LSB-first. -/

/-- One bit of the reflected CRC-32 update: shift right, conditionally XOR the
reflected polynomial `0xEDB88320`. -/
def crc32BitStep (c : Nat) : Nat :=
  if c % 2 == 1 then (c / 2) ^^^ 0xEDB88320 else c / 2

/-- Absorb one byte into the running CRC: XOR it in, then run eight bit steps. -/
def crc32ByteStep (crc : Nat) (b : Byte) : Nat :=
  crc32BitStep^[8] (crc ^^^ b)

/-- `Crc32` (src/main.rs:23-27): a wrapped `u32` digest. -/
structure Crc32 where
  result : Nat
deriving DecidableEq, Repr

/-- `Crc32::calculate_hash_of` (src/main.rs:36-41): the standard reflected
CRC-32 of the input bytes (init `0xFFFFFFFF`, final XOR `0xFFFFFFFF`). -/
def Crc32.calculate_hash_of (data : List Byte) : Crc32 :=
  ⟨(data.foldl crc32ByteStep 0xFFFFFFFF) ^^^ 0xFFFFFFFF⟩

/-- The bytes of the ASCII string `"123456789"`. -/
def checkVectorBytes : List Byte := [49, 50, 51, 52, 53, 54, 55, 56, 57]

set_option maxRecDepth 8192 in
example : Crc32.calculate_hash_of checkVectorBytes = ⟨0xCBF43926⟩ := by decide

example : Crc32.calculate_hash_of [] = ⟨0⟩ := by decide

/-! ### The MessagePack decoder (rmpv crate)

`LoadedFile::load_from` (src/main.rs:55) decodes with
`rmpv::decode::read_value`.  Modelled from the spec and the rmpv crate's
documented behaviour (its source is not in this repository): one value is read
from the front of the buffer, trailing bytes are left unread; a truncated
buffer is a decode error; the reserved marker `0xc1` is a decode error; a
`Str*` payload is read as raw bytes and the value is produced **whether or not
those bytes are valid UTF-8** (rmpv stores the raw bytes and the UTF-8 error
inside the `Utf8String` instead of failing the decode).

Multi-byte fields are big-endian.  Signed fields are two's complement.
Integers are built as rmpv's `From` impls do: a non-negative value becomes
`PosInt`, a strictly negative one `NegInt`.

The Rust decoder recurses on children; the model carries explicit fuel,
decremented on every mutually recursive call so that the recursion is
structural (and hence evaluates by kernel reduction).  A value consuming `c`
bytes needs fuel at most `2 * c` (one unit to enter the value, one per
element-list step, each matched by at least one consumed byte), so the
top-level entry point's fuel of `2 * length + 2` is never exhausted. -/

/-- rmpv decode errors, as far as the program distinguishes them. -/
inductive DecodeError where
  | truncated
  | typeMismatch
deriving DecidableEq, Repr

/-- Split off the first `n` bytes, failing on a short buffer. -/
def takeBytes (n : Nat) (bs : List Byte) : Except DecodeError (List Byte × List Byte) :=
  if n ≤ bs.length then .ok (bs.take n, bs.drop n) else .error .truncated

/-- Big-endian unsigned value of a byte sequence. -/
def beNat (bs : List Byte) : Nat :=
  bs.foldl (fun acc b => acc * 256 + b) 0

/-- Big-endian two's-complement value of a `w`-byte sequence. -/
def beInt (w : Nat) (bs : List Byte) : Int :=
  let n := beNat bs
  if n < 2 ^ (8 * w - 1) then (n : Int) else (n : Int) - 2 ^ (8 * w)

/-- `From<i64> for rmpv::Integer`: negative to `NegInt`, else `PosInt`. -/
def intPrivOfInt (v : Int) : IntPriv :=
  if v < 0 then .negInt v else .posInt v.toNat

/-- Read a `w`-byte big-endian unsigned integer field. -/
def readBeNat (w : Nat) (bs : List Byte) : Except DecodeError (Nat × List Byte) := do
  let (field, rest) ← takeBytes w bs
  .ok (beNat field, rest)

/-- Read a `w`-byte big-endian two's-complement integer field. -/
def readBeInt (w : Nat) (bs : List Byte) : Except DecodeError (Int × List Byte) := do
  let (field, rest) ← takeBytes w bs
  .ok (beInt w field, rest)

/-- `read_str_data`: take the `len` payload bytes and build the string value
from them unconditionally — UTF-8 validity is not a decode failure. -/
def readStrData (len : Nat) (bs : List Byte) : Except DecodeError (Value × List Byte) := do
  let (payload, rest) ← takeBytes len bs
  .ok (.string payload, rest)

/-- `read_bin_data` wrapped into `Value::Binary`. -/
def readBinData (len : Nat) (bs : List Byte) : Except DecodeError (Value × List Byte) := do
  let (payload, rest) ← takeBytes len bs
  .ok (.binary payload, rest)

/-- `read_ext_body`: the `i8` type tag, then `len` payload bytes. -/
def readExtBody (len : Nat) (bs : List Byte) : Except DecodeError (Value × List Byte) := do
  let (tag, rest) ← readBeInt 1 bs
  let (payload, rest') ← takeBytes len rest
  .ok (.ext tag payload, rest')

mutual

/-- `rmpv::decode::read_value` with explicit fuel: dispatch on the marker
byte, read the value's payload, recurse for `Array`/`Map` children. -/
def readValueFuel : Nat → List Byte → Except DecodeError (Value × List Byte)
  | 0, _ => .error .truncated
  | _ + 1, [] => .error .truncated
  | fuel + 1, b :: rest =>
    if b ≤ 0x7f then .ok (.integer (.posInt b), rest)
    else if b ≤ 0x8f then
      match readPairsFuel fuel (b - 0x80) rest with
      | .ok (kvs, rest') => .ok (.map kvs, rest')
      | .error e => .error e
    else if b ≤ 0x9f then
      match readValuesFuel fuel (b - 0x90) rest with
      | .ok (vs, rest') => .ok (.array vs, rest')
      | .error e => .error e
    else if b ≤ 0xbf then readStrData (b - 0xa0) rest
    else if b == 0xc0 then .ok (.nil, rest)
    else if b == 0xc1 then .error .typeMismatch
    else if b == 0xc2 then .ok (.boolean false, rest)
    else if b == 0xc3 then .ok (.boolean true, rest)
    else if b == 0xc4 then do
      let (len, rest') ← readBeNat 1 rest
      readBinData len rest'
    else if b == 0xc5 then do
      let (len, rest') ← readBeNat 2 rest
      readBinData len rest'
    else if b == 0xc6 then do
      let (len, rest') ← readBeNat 4 rest
      readBinData len rest'
    else if b == 0xc7 then do
      let (len, rest') ← readBeNat 1 rest
      readExtBody len rest'
    else if b == 0xc8 then do
      let (len, rest') ← readBeNat 2 rest
      readExtBody len rest'
    else if b == 0xc9 then do
      let (len, rest') ← readBeNat 4 rest
      readExtBody len rest'
    else if b == 0xca then do
      let (bits, rest') ← readBeNat 4 rest
      .ok (.f32 bits, rest')
    else if b == 0xcb then do
      let (bits, rest') ← readBeNat 8 rest
      .ok (.f64 bits, rest')
    else if b == 0xcc then do
      let (v, rest') ← readBeNat 1 rest
      .ok (.integer (.posInt v), rest')
    else if b == 0xcd then do
      let (v, rest') ← readBeNat 2 rest
      .ok (.integer (.posInt v), rest')
    else if b == 0xce then do
      let (v, rest') ← readBeNat 4 rest
      .ok (.integer (.posInt v), rest')
    else if b == 0xcf then do
      let (v, rest') ← readBeNat 8 rest
      .ok (.integer (.posInt v), rest')
    else if b == 0xd0 then do
      let (v, rest') ← readBeInt 1 rest
      .ok (.integer (intPrivOfInt v), rest')
    else if b == 0xd1 then do
      let (v, rest') ← readBeInt 2 rest
      .ok (.integer (intPrivOfInt v), rest')
    else if b == 0xd2 then do
      let (v, rest') ← readBeInt 4 rest
      .ok (.integer (intPrivOfInt v), rest')
    else if b == 0xd3 then do
      let (v, rest') ← readBeInt 8 rest
      .ok (.integer (intPrivOfInt v), rest')
    else if b == 0xd4 then readExtBody 1 rest
    else if b == 0xd5 then readExtBody 2 rest
    else if b == 0xd6 then readExtBody 4 rest
    else if b == 0xd7 then readExtBody 8 rest
    else if b == 0xd8 then readExtBody 16 rest
    else if b == 0xd9 then do
      let (len, rest') ← readBeNat 1 rest
      readStrData len rest'
    else if b == 0xda then do
      let (len, rest') ← readBeNat 2 rest
      readStrData len rest'
    else if b == 0xdb then do
      let (len, rest') ← readBeNat 4 rest
      readStrData len rest'
    else if b == 0xdc then do
      let (len, rest') ← readBeNat 2 rest
      match readValuesFuel fuel len rest' with
      | .ok (vs, rest2) => .ok (.array vs, rest2)
      | .error e => .error e
    else if b == 0xdd then do
      let (len, rest') ← readBeNat 4 rest
      match readValuesFuel fuel len rest' with
      | .ok (vs, rest2) => .ok (.array vs, rest2)
      | .error e => .error e
    else if b == 0xde then do
      let (len, rest') ← readBeNat 2 rest
      match readPairsFuel fuel len rest' with
      | .ok (kvs, rest2) => .ok (.map kvs, rest2)
      | .error e => .error e
    else if b == 0xdf then do
      let (len, rest') ← readBeNat 4 rest
      match readPairsFuel fuel len rest' with
      | .ok (kvs, rest2) => .ok (.map kvs, rest2)
      | .error e => .error e
    else .ok (.integer (.negInt ((b : Int) - 256)), rest)

/-- `read_array_data`: `n` consecutive child values (fuel spent per step keeps
the mutual recursion structural). -/
def readValuesFuel : Nat → Nat → List Byte → Except DecodeError (List Value × List Byte)
  | _, 0, bs => .ok ([], bs)
  | 0, _ + 1, _ => .error .truncated
  | fuel + 1, n + 1, bs =>
    match readValueFuel fuel bs with
    | .error e => .error e
    | .ok (v, bs1) =>
      match readValuesFuel fuel n bs1 with
      | .error e => .error e
      | .ok (vs, bs2) => .ok (v :: vs, bs2)

/-- `read_map_data`: `n` consecutive key/value pairs. -/
def readPairsFuel : Nat → Nat → List Byte → Except DecodeError (List (Value × Value) × List Byte)
  | _, 0, bs => .ok ([], bs)
  | 0, _ + 1, _ => .error .truncated
  | fuel + 1, n + 1, bs =>
    match readValueFuel fuel bs with
    | .error e => .error e
    | .ok (k, bs1) =>
      match readValueFuel fuel bs1 with
      | .error e => .error e
      | .ok (v, bs2) =>
        match readPairsFuel fuel n bs2 with
        | .error e => .error e
        | .ok (kvs, bs3) => .ok ((k, v) :: kvs, bs3)

end

/-- `rmpv::decode::read_value` on a byte buffer: one root value off the
front, trailing bytes returned unread. -/
def read_value (bs : List Byte) : Except DecodeError (Value × List Byte) :=
  readValueFuel (2 * bs.length + 2) bs

example : read_value [0xc0] = .ok (.nil, []) := rfl

example : read_value [0x92, 0x01, 0xa1, 0x41] =
    .ok (.array [.integer (.posInt 1), .string [0x41]], []) := rfl

example : read_value [0x81, 0xc3, 0xe0] =
    .ok (.map [(.boolean true, .integer (.negInt (-32)))], []) := rfl

example : read_value [0xa2, 0x41] = .error .truncated := rfl

/-! ### UTF-8 validity and rendering

`render_rmpv` (src/main.rs:217-292) walks a value tree and emits widgets.  The
one way it can fail is the `String` arm (src/main.rs:234-236):
`s.as_str().expect("should be valid string")` panics when the stored bytes are
not valid UTF-8.  We model a render pass as `Option Unit`, `none` being a
panic, and abstract away the widgets themselves (collapsing headers are
treated as open, i.e. every child is visited).

`Utf8String::as_str` is `Some` exactly when `String::from_utf8` succeeded on
the stored bytes; `validUtf8` is the standard UTF-8 acceptance rule (RFC 3629:
no surrogates, no overlongs, four bytes at most). -/

/-- Is this byte a UTF-8 continuation byte (`0x80..=0xbf`)? -/
def isCont (c : Byte) : Bool := 0x80 ≤ c && c ≤ 0xbf

/-- Standard UTF-8 validity of a byte sequence. -/
def validUtf8 : List Byte → Bool
  | [] => true
  | b :: rest =>
    if b < 0x80 then validUtf8 rest
    else if b < 0xc2 then false
    else if b ≤ 0xdf then
      match rest with
      | c1 :: rest1 => isCont c1 && validUtf8 rest1
      | [] => false
    else if b ≤ 0xef then
      match rest with
      | c1 :: c2 :: rest2 =>
        (if b == 0xe0 then 0xa0 ≤ c1 && c1 ≤ 0xbf
         else if b == 0xed then 0x80 ≤ c1 && c1 ≤ 0x9f
         else isCont c1) &&
        isCont c2 && validUtf8 rest2
      | _ => false
    else if b ≤ 0xf4 then
      match rest with
      | c1 :: c2 :: c3 :: rest3 =>
        (if b == 0xf0 then 0x90 ≤ c1 && c1 ≤ 0xbf
         else if b == 0xf4 then 0x80 ≤ c1 && c1 ≤ 0x8f
         else isCont c1) &&
        isCont c2 && isCont c3 && validUtf8 rest3
      | _ => false
    else false

example : validUtf8 [0x41, 0xc3, 0xa9] = true := by decide

example : validUtf8 [0xff] = false := by decide

example : validUtf8 [0xed, 0xa0, 0x80] = false := by decide

/-- The map-key kinds rendered inline in the `map[{}]` header
(src/main.rs:263-270): `Nil`, `String`, `Integer`, `F64`, `F32` — for these,
`render_rmpv` is **not** called on the key itself. -/
def isInlineKey : Value → Bool
  | .nil | .string _ | .integer _ | .f64 _ | .f32 _ => true
  | _ => false

mutual

/-- `render_rmpv` (src/main.rs:217-292), tracking only panic/no-panic:
`none` models the `expect` panic on an invalid-UTF-8 `String` node; all
other leaf arms always succeed; `Array` renders every element; `Map` renders
the value of every entry, and the key too only when it is not one of the
inline kinds. -/
def renderRmpv : Value → Option Unit
  | .nil => some ()
  | .boolean _ => some ()
  | .integer _ => some ()
  | .f32 _ => some ()
  | .f64 _ => some ()
  | .string s => if validUtf8 s then some () else none
  | .binary _ => some ()
  | .array a => renderRmpvList a
  | .map m => renderRmpvPairs m
  | .ext _ _ => some ()

/-- Render the elements of an `Array` in index order. -/
def renderRmpvList : List Value → Option Unit
  | [] => some ()
  | v :: vs =>
    match renderRmpv v with
    | some _ => renderRmpvList vs
    | none => none

/-- Render the entries of a `Map` in stored order. -/
def renderRmpvPairs : List (Value × Value) → Option Unit
  | [] => some ()
  | (k, v) :: kvs =>
    let entry :=
      if isInlineKey k then renderRmpv v
      else
        match renderRmpv k with
        | some _ => renderRmpv v
        | none => none
    match entry with
    | some _ => renderRmpvPairs kvs
    | none => none

end

example : renderRmpv (.string [0x41]) = some () := by decide

example : renderRmpv (.string [0xff]) = none := by decide

example : renderRmpv (.map [(.string [0xff], .nil)]) = some () := by decide

/-! ### The file-load pipeline

`MsgPackDifferApp` keeps, per slot, a bound path (`path_a`/`path_b`) and a
load result (`loaded_a`/`loaded_b`).  Each redraw runs
`render_msg_pack_file` (src/main.rs:103-167) over the slot:

  1. path sync (lines 109-123): with a bound path, a loaded record whose
     stored path differs is reloaded, an empty slot is loaded, and — the
     wildcard arm `_ => {}` — a failed slot is left untouched; with no bound
     path the record is dropped;
  2. button row (lines 130-153): `Reload` and `X` buttons exist only in the
     `Ok` arm; a failed slot shows only the error text;
  3. operation apply (lines 157-166): `Reload(path)` re-runs
     `LoadedFile::load_from` on that path, `Unload` clears the bound path.

The filesystem is a snapshot `disk : FsPath → Option (List Byte)` for the
duration of the (synchronous) pass; `none` models an `std::fs::read` error. -/

/-- A file path (`std::path::PathBuf`). -/
abbrev FsPath := String

/-- The `Box<dyn Error>` of `LoadedFile::load_from`: an I/O failure from
`std::fs::read` or a decode failure from `rmpv::decode::read_value`. -/
inductive LoadError where
  | ioError
  | decodeFailed (e : DecodeError)
deriving DecidableEq, Repr

/-- `LoadedFile` (src/main.rs:44-49). -/
structure LoadedFile where
  path : FsPath
  data : List Byte
  crc32 : Crc32
  parsed : Value
deriving Repr

/-- `LoadedFile::load_from` (src/main.rs:51-62): read the bytes at `path`,
digest them, decode one root value; a read or decode failure is returned as
the error, never a partial record. -/
def LoadedFile.load_from (disk : FsPath → Option (List Byte)) (path : FsPath) :
    Except LoadError LoadedFile :=
  match disk path with
  | none => .error .ioError
  | some data =>
    let crc32 := Crc32.calculate_hash_of data
    match read_value data with
    | .error e => .error (.decodeFailed e)
    | .ok (parsed, _) => .ok ⟨path, data, crc32, parsed⟩

/-- One slot of `MsgPackDifferApp` (src/main.rs:65-73): bound path and load
result. -/
structure SlotState where
  picked : Option FsPath
  loaded : Option (Except LoadError LoadedFile)

/-- The path-sync block (src/main.rs:109-123).  Note the wildcard arm: a slot
holding `Some(Err(_))` is left exactly as it is, whatever the bound path. -/
def syncLoaded (disk : FsPath → Option (List Byte)) (picked : Option FsPath)
    (loaded : Option (Except LoadError LoadedFile)) :
    Option (Except LoadError LoadedFile) :=
  match picked with
  | some p =>
    match loaded with
    | some (.ok f) =>
      if f.path ≠ p then some (LoadedFile.load_from disk p) else some (.ok f)
    | none => some (LoadedFile.load_from disk p)
    | some (.error e) => some (.error e)
  | none => none

/-- `Operation` (src/main.rs:125-128). -/
inductive Operation where
  | reload (p : FsPath)
  | unload
deriving DecidableEq, Repr

/-- Which button the user clicked this frame, if any. -/
inductive ButtonClick where
  | reloadClicked
  | unloadClicked
deriving DecidableEq, Repr

/-- The button row (src/main.rs:130-153): `Reload` and `X` are rendered —
and can therefore produce an operation — only when the slot holds
`Some(Ok(file))`; a failed or empty slot offers neither. -/
def computeOperation (loaded : Option (Except LoadError LoadedFile))
    (click : Option ButtonClick) : Option Operation :=
  match loaded with
  | some (.ok f) =>
    match click with
    | some .reloadClicked => some (.reload f.path)
    | some .unloadClicked => some .unload
    | none => none
  | _ => none

/-- The operation block (src/main.rs:157-166): `Reload(path)` re-runs
`load_from` on that path; `Unload` clears the bound path (the record itself
is dropped by the sync block of the next pass). -/
def applyOperation (disk : FsPath → Option (List Byte)) (op : Option Operation)
    (s : SlotState) : SlotState :=
  match op with
  | some (.reload p) => { s with loaded := some (LoadedFile.load_from disk p) }
  | some .unload => { s with picked := none }
  | none => s

/-- One pass of `render_msg_pack_file` (src/main.rs:103-167) over one slot. -/
def render_msg_pack_file (disk : FsPath → Option (List Byte))
    (click : Option ButtonClick) (s : SlotState) : SlotState :=
  let loaded := syncLoaded disk s.picked s.loaded
  let op := computeOperation loaded click
  applyOperation disk op { s with loaded := loaded }

example :
    (render_msg_pack_file (fun _ => some [0xc0]) none ⟨some "a", none⟩).loaded =
      some (.ok ⟨"a", [0xc0], ⟨0x49662d3d⟩, .nil⟩) := rfl

/-! ### Helper lemmas -/

theorem beqComm {α : Type _} [BEq α] [LawfulBEq α] (a b : α) : (a == b) = (b == a) := by
  by_cases h : a = b
  · subst h; rfl
  · rw [beq_eq_false_iff_ne.mpr h, beq_eq_false_iff_ne.mpr (Ne.symm h)]

theorem f64Eq_symm (a b : Nat) : f64Eq a b = f64Eq b a := by
  simp only [f64Eq]
  cases hA : f64IsNaN a <;> cases hB : f64IsNaN b <;> simp
  rw [beqComm, Bool.and_comm]

theorem f32Eq_symm (a b : Nat) : f32Eq a b = f32Eq b a := by
  simp only [f32Eq]
  cases hA : f32IsNaN a <;> cases hB : f32IsNaN b <;> simp
  rw [beqComm, Bool.and_comm]

theorem f64Eq_trans (a b c : Nat) (h1 : f64Eq a b = true) (h2 : f64Eq b c = true) :
    f64Eq a c = true := by
  simp only [f64Eq, Bool.and_eq_true, Bool.or_eq_true, Bool.not_eq_true',
    beq_iff_eq] at h1 h2 ⊢
  obtain ⟨⟨ha, hb⟩, hab⟩ := h1
  obtain ⟨⟨hb2, hc⟩, hbc⟩ := h2
  refine ⟨⟨ha, hc⟩, ?_⟩
  rcases hab with h | h
  · subst h; exact hbc
  · rcases hbc with h2' | h2'
    · subst h2'; exact Or.inr h
    · exact Or.inr ⟨h.1, h2'.2⟩

theorem f32Eq_trans (a b c : Nat) (h1 : f32Eq a b = true) (h2 : f32Eq b c = true) :
    f32Eq a c = true := by
  simp only [f32Eq, Bool.and_eq_true, Bool.or_eq_true, Bool.not_eq_true',
    beq_iff_eq] at h1 h2 ⊢
  obtain ⟨⟨ha, hb⟩, hab⟩ := h1
  obtain ⟨⟨hb2, hc⟩, hbc⟩ := h2
  refine ⟨⟨ha, hc⟩, ?_⟩
  rcases hab with h | h
  · subst h; exact hbc
  · rcases hbc with h2' | h2'
    · subst h2'; exact Or.inr h
    · exact Or.inr ⟨h.1, h2'.2⟩

theorem intPrivEq_symm (a b : IntPriv) : intPrivEq a b = intPrivEq b a := by
  cases a <;> cases b <;> simp [intPrivEq] <;> exact eq_comm

theorem intPrivEq_trans (a b c : IntPriv) (h1 : intPrivEq a b = true)
    (h2 : intPrivEq b c = true) : intPrivEq a c = true := by
  cases a <;> cases b <;> cases c <;> simp_all [intPrivEq]

theorem intPrivEq_refl (a : IntPriv) : intPrivEq a a = true := by
  cases a <;> simp [intPrivEq]

/-- Structural induction over `Value`, with membership hypotheses for the
elements of the nested `array`/`map` lists. -/
theorem Value.inductionOn {P : Value → Prop} (v : Value)
    (hnil : P .nil)
    (hboolean : ∀ b, P (.boolean b))
    (hinteger : ∀ i, P (.integer i))
    (hf32 : ∀ bits, P (.f32 bits))
    (hf64 : ∀ bits, P (.f64 bits))
    (hstring : ∀ s, P (.string s))
    (hbinary : ∀ b, P (.binary b))
    (harray : ∀ a, (∀ w ∈ a, P w) → P (.array a))
    (hmap : ∀ m, (∀ k w, (k, w) ∈ m → P k ∧ P w) → P (.map m))
    (hext : ∀ tag data, P (.ext tag data)) : P v := by
  refine @Value.rec P (fun l => ∀ w ∈ l, P w)
    (fun l => ∀ k w, (k, w) ∈ l → P k ∧ P w)
    (fun kv => P kv.1 ∧ P kv.2) hnil hboolean hinteger hf32 hf64 hstring hbinary
    harray hmap hext ?_ ?_ ?_ ?_ ?_ v
  · intro w hw; cases hw
  · intro x xs hx hxs w hw
    cases hw with
    | head => exact hx
    | tail _ hw' => exact hxs w hw'
  · intro k w hkw; cases hkw
  · intro x xs hx hxs k w hkw
    cases hkw with
    | head => exact hx
    | tail _ hkw' => exact hxs k w hkw'
  · intro f s hf hs; exact ⟨hf, hs⟩

mutual

/-- Does a value tree contain no NaN float anywhere?  (Reflexivity of the
derived `PartialEq` holds exactly on such trees.) -/
def noNaN : Value → Bool
  | .nil => true
  | .boolean _ => true
  | .integer _ => true
  | .f32 a => !f32IsNaN a
  | .f64 a => !f64IsNaN a
  | .string _ => true
  | .binary _ => true
  | .array a => noNaNList a
  | .map m => noNaNPairs m
  | .ext _ _ => true

/-- `noNaN` over the elements of an `array`. -/
def noNaNList : List Value → Bool
  | [] => true
  | v :: vs => noNaN v && noNaNList vs

/-- `noNaN` over the entries of a `map`. -/
def noNaNPairs : List (Value × Value) → Bool
  | [] => true
  | (k, v) :: kvs => noNaN k && noNaN v && noNaNPairs kvs

end

theorem valueListEq_symm_of : ∀ l1 l2 : List Value,
    (∀ v ∈ l1, ∀ b, valueEq v b = valueEq b v) →
    valueListEq l1 l2 = valueListEq l2 l1 := by
  intro l1
  induction l1 with
  | nil => intro l2 _; cases l2 <;> simp [valueListEq]
  | cons x xs ihl =>
    intro l2 ih
    cases l2 with
    | nil => simp [valueListEq]
    | cons y ys =>
      simp only [valueListEq]
      rw [ih x (by simp) y, ihl ys (fun v hv b => ih v (by simp [hv]) b)]

theorem valuePairListEq_symm_of : ∀ l1 l2 : List (Value × Value),
    (∀ k v, (k, v) ∈ l1 → (∀ b, valueEq k b = valueEq b k) ∧
      (∀ b, valueEq v b = valueEq b v)) →
    valuePairListEq l1 l2 = valuePairListEq l2 l1 := by
  intro l1
  induction l1 with
  | nil => intro l2 _; cases l2 <;> simp [valuePairListEq]
  | cons x xs ihl =>
    intro l2 ih
    obtain ⟨k, v⟩ := x
    cases l2 with
    | nil => simp [valuePairListEq]
    | cons y ys =>
      obtain ⟨k2, v2⟩ := y
      simp only [valuePairListEq]
      rw [(ih k v (by simp)).1 k2, (ih k v (by simp)).2 v2,
        ihl ys (fun k' v' hkv => ih k' v' (by simp [hkv]))]

/-- The equality `HashableValue::eq` delegates to is symmetric. -/
theorem valueEq_symm (a : Value) : ∀ b, valueEq a b = valueEq b a := by
  induction a using Value.inductionOn with
  | hnil => intro b; cases b <;> simp [valueEq]
  | hboolean x => intro b; cases b <;> simp [valueEq] <;> exact eq_comm
  | hinteger i => intro b; cases b <;> simp [valueEq] <;> apply intPrivEq_symm
  | hf32 bits => intro b; cases b <;> simp [valueEq] <;> apply f32Eq_symm
  | hf64 bits => intro b; cases b <;> simp [valueEq] <;> apply f64Eq_symm
  | hstring s => intro b; cases b <;> simp [valueEq] <;> exact eq_comm
  | hbinary x => intro b; cases b <;> simp [valueEq] <;> exact eq_comm
  | harray l ihl => intro b; cases b <;> simp [valueEq] <;> apply valueListEq_symm_of _ _ ihl
  | hmap m ihm => intro b; cases b <;> simp [valueEq] <;> apply valuePairListEq_symm_of _ _ ihm
  | hext tag data =>
    intro b
    cases b <;> simp [valueEq]
    rw [beqComm tag, beqComm data]

theorem valueListEq_trans_of : ∀ l1 l2 l3 : List Value,
    (∀ v ∈ l1, ∀ b c, valueEq v b = true → valueEq b c = true → valueEq v c = true) →
    valueListEq l1 l2 = true → valueListEq l2 l3 = true → valueListEq l1 l3 = true := by
  intro l1
  induction l1 with
  | nil =>
    intro l2 l3 _ h12 h23
    cases l2 <;> cases l3 <;> simp_all [valueListEq]
  | cons x xs ihl =>
    intro l2 l3 ih h12 h23
    cases l2 with
    | nil => simp [valueListEq] at h12
    | cons y ys =>
      cases l3 with
      | nil => simp [valueListEq] at h23
      | cons z zs =>
        simp only [valueListEq, Bool.and_eq_true] at h12 h23 ⊢
        exact ⟨ih x (by simp) y z h12.1 h23.1,
          ihl ys zs (fun v hv => ih v (by simp [hv])) h12.2 h23.2⟩

theorem valuePairListEq_trans_of : ∀ l1 l2 l3 : List (Value × Value),
    (∀ k v, (k, v) ∈ l1 →
      (∀ b c, valueEq k b = true → valueEq b c = true → valueEq k c = true) ∧
      (∀ b c, valueEq v b = true → valueEq b c = true → valueEq v c = true)) →
    valuePairListEq l1 l2 = true → valuePairListEq l2 l3 = true →
    valuePairListEq l1 l3 = true := by
  intro l1
  induction l1 with
  | nil =>
    intro l2 l3 _ h12 h23
    cases l2 <;> cases l3 <;> simp_all [valuePairListEq]
  | cons x xs ihl =>
    intro l2 l3 ih h12 h23
    obtain ⟨k, v⟩ := x
    cases l2 with
    | nil => simp [valuePairListEq] at h12
    | cons y ys =>
      obtain ⟨k2, v2⟩ := y
      cases l3 with
      | nil => simp [valuePairListEq] at h23
      | cons z zs =>
        obtain ⟨k3, v3⟩ := z
        simp only [valuePairListEq, Bool.and_eq_true] at h12 h23 ⊢
        obtain ⟨⟨hk12, hv12⟩, hr12⟩ := h12
        obtain ⟨⟨hk23, hv23⟩, hr23⟩ := h23
        exact ⟨⟨(ih k v (by simp)).1 k2 k3 hk12 hk23,
          (ih k v (by simp)).2 v2 v3 hv12 hv23⟩,
          ihl ys zs (fun k' v' hkv => ih k' v' (by simp [hkv])) hr12 hr23⟩

/-- The equality `HashableValue::eq` delegates to is transitive. -/
theorem valueEq_trans (a : Value) :
    ∀ b c, valueEq a b = true → valueEq b c = true → valueEq a c = true := by
  induction a using Value.inductionOn with
  | hnil =>
    intro b c hab hbc
    cases b <;> try exact Bool.noConfusion hab
    cases c <;> try exact Bool.noConfusion hbc
    rfl
  | hboolean x =>
    intro b c hab hbc
    cases b <;> try exact Bool.noConfusion hab
    cases c <;> try exact Bool.noConfusion hbc
    simp only [valueEq, beq_iff_eq] at hab hbc ⊢
    exact hab.trans hbc
  | hinteger i =>
    intro b c hab hbc
    cases b <;> try exact Bool.noConfusion hab
    cases c <;> try exact Bool.noConfusion hbc
    simp only [valueEq] at hab hbc ⊢
    exact intPrivEq_trans _ _ _ hab hbc
  | hf32 bits =>
    intro b c hab hbc
    cases b <;> try exact Bool.noConfusion hab
    cases c <;> try exact Bool.noConfusion hbc
    simp only [valueEq] at hab hbc ⊢
    exact f32Eq_trans _ _ _ hab hbc
  | hf64 bits =>
    intro b c hab hbc
    cases b <;> try exact Bool.noConfusion hab
    cases c <;> try exact Bool.noConfusion hbc
    simp only [valueEq] at hab hbc ⊢
    exact f64Eq_trans _ _ _ hab hbc
  | hstring s =>
    intro b c hab hbc
    cases b <;> try exact Bool.noConfusion hab
    cases c <;> try exact Bool.noConfusion hbc
    simp only [valueEq, beq_iff_eq] at hab hbc ⊢
    exact hab.trans hbc
  | hbinary x =>
    intro b c hab hbc
    cases b <;> try exact Bool.noConfusion hab
    cases c <;> try exact Bool.noConfusion hbc
    simp only [valueEq, beq_iff_eq] at hab hbc ⊢
    exact hab.trans hbc
  | harray l ihl =>
    intro b c hab hbc
    cases b <;> try exact Bool.noConfusion hab
    cases c <;> try exact Bool.noConfusion hbc
    simp only [valueEq] at hab hbc ⊢
    exact valueListEq_trans_of _ _ _ ihl hab hbc
  | hmap m ihm =>
    intro b c hab hbc
    cases b <;> try exact Bool.noConfusion hab
    cases c <;> try exact Bool.noConfusion hbc
    simp only [valueEq] at hab hbc ⊢
    exact valuePairListEq_trans_of _ _ _ ihm hab hbc
  | hext tag data =>
    intro b c hab hbc
    cases b <;> try exact Bool.noConfusion hab
    cases c <;> try exact Bool.noConfusion hbc
    simp only [valueEq, Bool.and_eq_true, beq_iff_eq] at hab hbc ⊢
    exact ⟨hab.1.trans hbc.1, hab.2.trans hbc.2⟩

theorem valueListEq_refl_of : ∀ l : List Value,
    (∀ v ∈ l, noNaN v = true → valueEq v v = true) →
    noNaNList l = true → valueListEq l l = true := by
  intro l
  induction l with
  | nil => intro _ _; rfl
  | cons x xs ihl =>
    intro ih h
    simp only [noNaNList, Bool.and_eq_true] at h
    simp only [valueListEq, Bool.and_eq_true]
    exact ⟨ih x (by simp) h.1, ihl (fun v hv => ih v (by simp [hv])) h.2⟩

theorem valuePairListEq_refl_of : ∀ l : List (Value × Value),
    (∀ k v, (k, v) ∈ l → (noNaN k = true → valueEq k k = true) ∧
      (noNaN v = true → valueEq v v = true)) →
    noNaNPairs l = true → valuePairListEq l l = true := by
  intro l
  induction l with
  | nil => intro _ _; rfl
  | cons x xs ihl =>
    intro ih h
    obtain ⟨k, v⟩ := x
    simp only [noNaNPairs, Bool.and_eq_true] at h
    obtain ⟨⟨hk, hv⟩, hrest⟩ := h
    simp only [valuePairListEq, Bool.and_eq_true]
    exact ⟨⟨(ih k v (by simp)).1 hk, (ih k v (by simp)).2 hv⟩,
      ihl (fun k' v' hkv => ih k' v' (by simp [hkv])) hrest⟩

/-- The equality `HashableValue::eq` delegates to is reflexive on every value
containing no NaN float. -/
theorem valueEq_refl_of_noNaN (a : Value) : noNaN a = true → valueEq a a = true := by
  induction a using Value.inductionOn with
  | hnil => intro _; rfl
  | hboolean x => intro _; simp [valueEq]
  | hinteger i => intro _; simp [valueEq, intPrivEq_refl]
  | hf32 bits =>
    intro h
    simp only [noNaN, Bool.not_eq_true'] at h
    simp [valueEq, f32Eq, h]
  | hf64 bits =>
    intro h
    simp only [noNaN, Bool.not_eq_true'] at h
    simp [valueEq, f64Eq, h]
  | hstring s => intro _; simp [valueEq]
  | hbinary x => intro _; simp [valueEq]
  | harray l ihl =>
    intro h
    simp only [noNaN] at h
    simp only [valueEq]
    exact valueListEq_refl_of l ihl h
  | hmap m ihm =>
    intro h
    simp only [noNaN] at h
    simp only [valueEq]
    exact valuePairListEq_refl_of m ihm h
  | hext tag data => intro _; simp [valueEq]

theorem hashValueList_isSome_of : ∀ l : List Value,
    (∀ v ∈ l, (hashValue v).isSome = true) → (hashValueList l).isSome = true := by
  intro l
  induction l with
  | nil => intro _; rfl
  | cons x xs ihl =>
    intro ih
    obtain ⟨h1, hhx⟩ := Option.isSome_iff_exists.mp (ih x (by simp))
    obtain ⟨h2, hhxs⟩ :=
      Option.isSome_iff_exists.mp (ihl (fun v hv => ih v (by simp [hv])))
    simp [hashValueList, hhx, hhxs]

theorem hashValuePairList_isSome_of : ∀ l : List (Value × Value),
    (∀ k v, (k, v) ∈ l →
      (hashValue k).isSome = true ∧ (hashValue v).isSome = true) →
    (hashValuePairList l).isSome = true := by
  intro l
  induction l with
  | nil => intro _; rfl
  | cons x xs ihl =>
    intro ih
    obtain ⟨k, v⟩ := x
    obtain ⟨h1, hhk⟩ := Option.isSome_iff_exists.mp (ih k v (by simp)).1
    obtain ⟨h2, hhv⟩ := Option.isSome_iff_exists.mp (ih k v (by simp)).2
    obtain ⟨h3, hhxs⟩ :=
      Option.isSome_iff_exists.mp (ihl (fun k' v' hkv => ih k' v' (by simp [hkv])))
    simp [hashValuePairList, hhk, hhv, hhxs]

/-- The integer fallback chain always succeeds at `as_i64` or `as_u64`. -/
theorem hashInteger_isSome (i : IntPriv) : (hashInteger i).isSome = true := by
  cases i with
  | posInt n =>
    by_cases h : n ≤ i64Max <;>
      simp [hashInteger, IntPriv.as_i64, IntPriv.as_u64, h]
  | negInt n => simp [hashInteger, IntPriv.as_i64]

/-- `HashableValue::hash` never reaches its `panic!` arm. -/
theorem hashValue_isSome (v : Value) : (hashValue v).isSome = true := by
  induction v using Value.inductionOn with
  | hnil => rfl
  | hboolean b => rfl
  | hinteger i => exact hashInteger_isSome i
  | hf32 bits => rfl
  | hf64 bits => rfl
  | hstring s => rfl
  | hbinary b => rfl
  | harray l ihl =>
    obtain ⟨evs, hevs⟩ := Option.isSome_iff_exists.mp (hashValueList_isSome_of l ihl)
    simp [hashValue, hevs]
  | hmap m ihm =>
    obtain ⟨evs, hevs⟩ :=
      Option.isSome_iff_exists.mp (hashValuePairList_isSome_of m ihm)
    simp [hashValue, hevs]
  | hext tag data => rfl

/-! ### Claim theorems -/

/-- Helper for C10: an `Integer` whose mathematical value lies in
`[0, i64::MAX]` goes through the `as_i64` branch of `HashableValue::hash`,
whichever of the two storage constructors holds it. -/
theorem hashInteger_i64_branch (i : IntPriv) (h0 : 0 ≤ i.val)
    (h1 : i.val ≤ (i64Max : Int)) : hashInteger i = some [.i64 i.val] := by
  cases i with
  | posInt n =>
    simp only [IntPriv.val] at h1
    have hn : n ≤ i64Max := by exact_mod_cast h1
    simp [hashInteger, IntPriv.as_i64, IntPriv.val, hn]
  | negInt n => simp [hashInteger, IntPriv.as_i64, IntPriv.val]

/-- C1: the spec's contract `equal(a,b) ⇒ hash(a) == hash(b)` is broken by the
code: `HashableValue::eq` delegates to `rmpv::Value`'s derived `PartialEq`,
for which `F64(0.0) == F64(-0.0)` holds (IEEE numeric equality), while
`HashableValue::hash` feeds the hasher the two different `to_bits()` patterns.
This theorem evaluates the code at that failing input: the two values are
equal yet produce different hasher inputs. -/
theorem c1_equal_hash_contract_violated :
    valueEq (.f64 0) (.f64 f64NegZeroBits) = true ∧
    hashValue (.f64 0) = some [.u64 0] ∧
    hashValue (.f64 f64NegZeroBits) = some [.u64 f64NegZeroBits] ∧
    (hashValue (.f64 0) == hashValue (.f64 f64NegZeroBits)) = false := by
  refine ⟨by decide, rfl, rfl, by decide⟩

/-- C2 counterexample: `equal` is not reflexive — `equal(a, a)` is false for
`a = Float64(NaN)`, because the derived `PartialEq` compares floats with IEEE
numeric equality and NaN is unequal to itself. -/
theorem c2_reflexivity_fails_on_nan :
    valueEq (.f64 f64NaNBits) (.f64 f64NaNBits) = false := by decide

/-- C2 (amended): the `equal` relation is symmetric and transitive, and it is
reflexive on every Value containing no NaN float anywhere; reflexivity (and
hence the full equivalence claim) fails exactly on NaN-containing values. -/
theorem c2_equivalence_amended :
    (∀ a b : Value, valueEq a b = valueEq b a) ∧
    (∀ a b c : Value, valueEq a b = true → valueEq b c = true → valueEq a c = true) ∧
    (∀ a : Value, noNaN a = true → valueEq a a = true) :=
  ⟨valueEq_symm, valueEq_trans, valueEq_refl_of_noNaN⟩

theorem c2_equivalence_witness :
    valueEq (Value.f64 0) (Value.f64 f64NegZeroBits) = true ∧
    valueEq (Value.array [Value.nil]) (Value.array [Value.nil]) = true :=
  ⟨c2_equivalence_amended.2.1 (Value.f64 0) (Value.f64 f64NegZeroBits)
      (Value.f64 f64NegZeroBits) (by decide) (by decide),
    c2_equivalence_amended.2.2 (Value.array [Value.nil]) (by decide)⟩

/-- C3 counterexample: `equal(Float64(0.0), Float64(-0.0))` is **true**, not
false — the derived `PartialEq` compares floats by IEEE numeric value, not by
bit pattern. -/
theorem c3_zero_negzero_equal_is_true :
    valueEq (.f64 0) (.f64 f64NegZeroBits) = true := by decide

/-- C3 (amended): `equal(Float64(0.0), Float64(-0.0))` is true (float equality
is IEEE numeric), while their hashes still differ because `hash` uses the raw
bit patterns; the hash half of the original claim holds, the equality half is
inverted. -/
theorem c3_float_eq_numeric_hash_bitwise :
    valueEq (.f64 0) (.f64 f64NegZeroBits) = true ∧
    hashValue (.f64 0) = some [.u64 0] ∧
    hashValue (.f64 f64NegZeroBits) = some [.u64 f64NegZeroBits] ∧
    (hashValue (.f64 0) == hashValue (.f64 f64NegZeroBits)) = false := by
  refine ⟨by decide, rfl, rfl, by decide⟩

/-- C4 counterexample: `Nil` and `Boolean(false)` are different kinds yet
produce exactly the same hasher input sequence (`write_u8(0)` both), so the
hash function does not write a distinct per-kind leading discriminant for
every kind. -/
theorem c4_nil_boolean_false_same_hash_events :
    (hashValue Value.nil == hashValue (Value.boolean false)) = true := by decide

/-- C4 (amended): only the `Nil` (0), `Binary` (6), `Array` (7), `Map` (8) and
`Ext` (9) arms write a leading discriminant; `Boolean`, `Integer`, `F32`,
`F64` and `String` hash their payload with no discriminant.  Consequently
`Nil` and `Boolean(false)` produce identical hasher inputs, while the
spec-named pairs empty-`Array` vs empty-`Map` and `Nil` vs `Integer(0)` do
produce different hasher input sequences. -/
theorem c4_hash_discriminants_amended :
    hashValue Value.nil = some [.u8 0] ∧
    hashValue (Value.boolean false) = some [.u8 0] ∧
    hashValue (Value.array []) = some [.u8 7, .u64 0] ∧
    hashValue (Value.map []) = some [.u8 8, .u64 0] ∧
    (hashValue (Value.array []) == hashValue (Value.map [])) = false ∧
    hashValue (Value.integer (.posInt 0)) = some [.i64 0] ∧
    (hashValue Value.nil == hashValue (Value.integer (.posInt 0))) = false ∧
    hashValue (Value.binary []) = some [.u8 6, .u64 0, .bytes []] ∧
    hashValue (Value.ext 0 []) = some [.u8 9, .i8 0, .u64 0, .bytes []] := by
  decide

set_option maxRecDepth 8192 in
/-- C5: the digest is the standard reflected CRC-32: deterministic, the empty
input yields the standard CRC-32-of-empty value `0x00000000`, and the
reference vector `"123456789"` yields `0xCBF43926`. -/
theorem c5_crc32_standard :
    Crc32.calculate_hash_of checkVectorBytes = ⟨0xCBF43926⟩ ∧
    Crc32.calculate_hash_of [] = ⟨0⟩ ∧
    ∀ bs : List Byte, Crc32.calculate_hash_of bs = Crc32.calculate_hash_of bs :=
  ⟨by decide, by decide, fun _ => rfl⟩

/-- C6: the `Integer` arm of `HashableValue::hash` never reaches its
`as_f64`-or-`panic!` fallback (`as_i64` or `as_u64` always succeeds, for every
representable `rmpv::Integer`, decoder-produced ones included), and hence
`hash` as a whole never panics: it produces a hasher-input sequence for every
Value. -/
theorem c6_integer_hash_never_panics :
    (∀ i : IntPriv, (hashInteger i).isSome = true) ∧
    (∀ v : Value, (hashValue v).isSome = true) :=
  ⟨hashInteger_isSome, hashValue_isSome⟩

/-- C7 counterexample: with the slot in the Failed state (`Some(Err(_))`),
binding the new path `"b"` does **not** begin a load: the path-sync block's
wildcard arm leaves the old failure in place, although a load of `"b"` would
succeed on this filesystem. -/
theorem c7_setpath_on_failed_ignored :
    syncLoaded (fun _ => some [0xc0]) (some "b") (some (.error .ioError)) =
      some (.error .ioError) ∧
    LoadedFile.load_from (fun _ => some [0xc0]) "b" =
      .ok ⟨"b", [0xc0], ⟨0x49662d3d⟩, .nil⟩ :=
  ⟨rfl, rfl⟩

/-- C7 (amended): SetPath(p) triggers a fresh digest+decode of `p` from the
Empty state, and from the Loaded state exactly when `p` differs from the
record's stored path; from the Failed state the path change is ignored — the
old failure is retained and no load of the new path begins. -/
theorem c7_setpath_amended :
    ∀ (disk : FsPath → Option (List Byte)) (p : FsPath) (f : LoadedFile)
      (e : LoadError),
      syncLoaded disk (some p) none = some (LoadedFile.load_from disk p) ∧
      (f.path ≠ p →
        syncLoaded disk (some p) (some (.ok f)) = some (LoadedFile.load_from disk p)) ∧
      syncLoaded disk (some p) (some (.error e)) = some (.error e) := by
  intro disk p f e
  refine ⟨rfl, ?_, rfl⟩
  intro h
  simp [syncLoaded, h]

theorem c7_setpath_witness :
    syncLoaded (fun _ => some [0xc0]) (some "b")
      (some (.ok ⟨"a", [], ⟨0⟩, .nil⟩)) =
      some (LoadedFile.load_from (fun _ => some [0xc0]) "b") :=
  (c7_setpath_amended (fun _ => some [0xc0]) "b" ⟨"a", [], ⟨0⟩, .nil⟩
    .ioError).2.1 (by decide)

/-- C8 counterexample: in the Failed state no Reload operation is available —
a reload click is ignored, the slot keeps its failure, and no disk read
happens, although a load of the bound path would succeed on this
filesystem. -/
theorem c8_reload_unavailable_when_failed :
    render_msg_pack_file (fun _ => some [0xc0]) (some .reloadClicked)
      ⟨some "a", some (.error .ioError)⟩ =
      ⟨some "a", some (.error .ioError)⟩ ∧
    LoadedFile.load_from (fun _ => some [0xc0]) "a" =
      .ok ⟨"a", [0xc0], ⟨0x49662d3d⟩, .nil⟩ :=
  ⟨rfl, rfl⟩

/-- C8 (amended): Reload is available from the Loaded state only.  There it
re-runs `LoadedFile::load_from` on the bound path against the current
filesystem — never reusing the cached bytes — so the produced record carries
the bytes, digest and decoded tree of what is on disk now; from the Failed
state a reload click does nothing. -/
theorem c8_reload_amended :
    ∀ (disk : FsPath → Option (List Byte)) (p : FsPath) (f : LoadedFile)
      (e : LoadError),
      f.path = p →
      (render_msg_pack_file disk (some .reloadClicked) ⟨some p, some (.ok f)⟩ =
        ⟨some p, some (LoadedFile.load_from disk p)⟩) ∧
      (∀ bytes v rest, disk p = some bytes → read_value bytes = .ok (v, rest) →
        LoadedFile.load_from disk p =
          .ok ⟨p, bytes, Crc32.calculate_hash_of bytes, v⟩) ∧
      (render_msg_pack_file disk (some .reloadClicked) ⟨some p, some (.error e)⟩ =
        ⟨some p, some (.error e)⟩) := by
  intro disk p f e hpath
  refine ⟨?_, ?_, rfl⟩
  · simp [render_msg_pack_file, syncLoaded, computeOperation, applyOperation, hpath]
  · intro bytes v rest hdisk hread
    simp [LoadedFile.load_from, hdisk, hread]

theorem c8_reload_witness :
    (render_msg_pack_file (fun _ => some [0xc3]) (some .reloadClicked)
      ⟨some "a", some (.ok ⟨"a", [0xc0], ⟨0x49662d3d⟩, .nil⟩)⟩ =
      ⟨some "a", some (LoadedFile.load_from (fun _ => some [0xc3]) "a")⟩) ∧
    LoadedFile.load_from (fun _ => some [0xc3]) "a" =
      .ok ⟨"a", [0xc3], Crc32.calculate_hash_of [0xc3], .boolean true⟩ :=
  ⟨((c8_reload_amended (fun _ => some [0xc3]) "a"
      ⟨"a", [0xc0], ⟨0x49662d3d⟩, .nil⟩ .ioError) rfl).1,
    ((c8_reload_amended (fun _ => some [0xc3]) "a"
      ⟨"a", [0xc0], ⟨0x49662d3d⟩, .nil⟩ .ioError) rfl).2.1 [0xc3]
      (.boolean true) [] rfl rfl⟩

/-- C9: decoding a buffer whose root is a (FixStr) String with invalid-UTF-8
payload bytes succeeds — the string value is produced from the raw bytes, not
rejected — and the invalid UTF-8 only surfaces when `render_rmpv` first
accesses the string's text (`as_str().expect(...)`, modelled as `none`). -/
theorem c9_invalid_utf8_decodes_then_render_panics :
    ∀ s : List Byte, s.length ≤ 31 → validUtf8 s = false →
      read_value ((0xa0 + s.length) :: s) = .ok (.string s, []) ∧
      renderRmpv (.string s) = none := by
  intro s hlen hval
  have key : ∀ fuel, readValueFuel (fuel + 1) ((0xa0 + s.length) :: s) =
      readStrData s.length s := by
    intro fuel
    have c1 : ¬(0xa0 + s.length ≤ 0x7f) := by omega
    have c2 : ¬(0xa0 + s.length ≤ 0x8f) := by omega
    have c3 : ¬(0xa0 + s.length ≤ 0x9f) := by omega
    have c4 : 0xa0 + s.length ≤ 0xbf := by omega
    have harg : 0xa0 + s.length - 0xa0 = s.length := by omega
    simp only [readValueFuel]
    rw [if_neg c1, if_neg c2, if_neg c3, if_pos c4, harg]
  have htake : takeBytes s.length s = .ok (s, []) := by
    simp [takeBytes]
  have hstr : readStrData s.length s = .ok (.string s, []) := by
    unfold readStrData
    rw [htake]
    rfl
  constructor
  · show readValueFuel (2 * ((0xa0 + s.length) :: s).length + 2) _ = _
    have h2 : 2 * ((0xa0 + s.length) :: s).length + 2 = (2 * s.length + 3) + 1 := by
      simp [List.length_cons]
      omega
    rw [h2, key, hstr]
  · simp [renderRmpv, hval]

theorem c9_invalid_utf8_witness :
    read_value [0xa1, 0xff] = .ok (.string [0xff], []) ∧
    renderRmpv (.string [0xff]) = none :=
  c9_invalid_utf8_decodes_then_render_panics [0xff] (by decide) (by decide)

/-- C10: every `Integer` whose mathematical value `v` satisfies
`0 ≤ v ≤ i64::MAX` is hashed through the `as_i64` branch — whichever storage
constructor holds it — so two Integers with the same in-range mathematical
value always feed the identical hasher input `write_i64(v)`. -/
theorem c10_integer_i64_branch :
    ∀ i j : IntPriv, 0 ≤ i.val → i.val ≤ (i64Max : Int) → j.val = i.val →
      hashValue (.integer i) = some [.i64 i.val] ∧
      hashValue (.integer j) = hashValue (.integer i) := by
  intro i j h0 h1 hj
  have hi := hashInteger_i64_branch i h0 h1
  have hjv := hashInteger_i64_branch j (by rw [hj]; exact h0) (by rw [hj]; exact h1)
  constructor
  · show hashInteger i = _
    exact hi
  · show hashInteger j = hashInteger i
    rw [hi, hjv, hj]

theorem c10_integer_witness :
    hashValue (.integer (.posInt 5)) = some [.i64 (IntPriv.posInt 5).val] ∧
    hashValue (.integer (.negInt 5)) = hashValue (.integer (.posInt 5)) :=
  c10_integer_i64_branch (.posInt 5) (.negInt 5) (by decide) (by decide) (by decide)
